import Mathlib

/-!
Shallow embedding of `src/monitor.py` (garden stock monitor).

The program polls a stock endpoint, detects per-category session rotations
by comparing the `Date_Start` marker of the first item of each category to
the last stored one, aggregates item quantities by `item_id`, filters the
aggregate against a fixed watchlist, and schedules the next fetch from the
earliest stored predicted session end that lies strictly in the future of
the server-reported time.

Machine integers are modelled as `Int`/`Nat`; instants are epoch seconds
(`Int`).  Python dictionaries are modelled as insertion-ordered association
lists with the same get/set semantics.  Library calls
(`datetime.fromisoformat`, `datetime.strptime`, `str.replace`) are modelled
by executable Lean functions over the character list of the string,
restricted to the formats the program feeds them.
-/

/-- Raw stock entry of one category in a fetched snapshot
(`item_id`, `display_name`, `quantity`, `Date_Start`, `Date_End`). -/
structure ItemRecord where
  item_id : Nat
  display_name : String
  quantity : Int
  Date_Start : String
  Date_End : String
deriving DecidableEq

/-- Value of a decimal digit character, `none` on a non-digit. -/
def digitVal (c : Char) : Option Nat :=
  if c.isDigit then some (c.toNat - 48) else none

/-- Two-digit decimal number. -/
def twoDigits (a b : Char) : Option Nat := do
  let x ← digitVal a
  let y ← digitVal b
  pure (x * 10 + y)

/-- Four-digit decimal number. -/
def fourDigits (a b c d : Char) : Option Nat := do
  let x ← digitVal a
  let y ← digitVal b
  let z ← digitVal c
  let w ← digitVal d
  pure (x * 1000 + y * 100 + z * 10 + w)

/-- Gregorian leap-year test. -/
def isLeap (y : Nat) : Bool :=
  y % 4 == 0 && (y % 100 != 0 || y % 400 == 0)

/-- Days in a month of the proleptic Gregorian calendar. -/
def daysInMonth (y m : Nat) : Nat :=
  if m == 2 then (if isLeap y then 29 else 28)
  else if m == 4 || m == 6 || m == 9 || m == 11 then 30
  else 31

/-- Days since 1970-01-01 of civil date `y-m-d` (`y ≥ 1`, `1 ≤ m ≤ 12`,
`1 ≤ d`); standard days-from-civil computation. -/
def daysFromCivil (y m d : Nat) : Int :=
  let y2 := if m ≤ 2 then y - 1 else y
  let era := y2 / 400
  let yoe := y2 - era * 400
  let mp := (m + 9) % 12
  let doy := (153 * mp + 2) / 5 + d - 1
  let doe := yoe * 365 + yoe / 4 - yoe / 100 + doy
  (((era * 146097 + doe : Nat)) : Int) - 719468

/-- Epoch seconds of `y-m-d h:mi:s` UTC. -/
def epochOf (y m d h mi s : Nat) : Int :=
  daysFromCivil y m d * 86400 + (h * 3600 + mi * 60 + s : Nat)

/-- Model of `str.replace('Z', '+00:00')` on the character list. -/
def replaceZ : List Char → List Char
  | [] => []
  | 'Z' :: rest => '+' :: '0' :: '0' :: ':' :: '0' :: '0' :: replaceZ rest
  | c :: rest => c :: replaceZ rest

/-- Model of `datetime.fromisoformat(·).astimezone(timezone.utc)` on the
offset-qualified form `YYYY-MM-DDTHH:MM:SS±hh:mm` (the shape the program
produces by replacing a `Z` suffix with `+00:00`; the spec restricts
`Date_End` to Z-suffixed or offset-qualified ISO-8601).  Returns epoch
seconds UTC, `none` on malformed input. -/
def fromisoformatUtc (cs : List Char) : Option Int :=
  match cs with
  | [y1, y2, y3, y4, '-', m1, m2, '-', d1, d2, 'T',
     h1, h2, ':', n1, n2, ':', s1, s2, sg, o1, o2, ':', o3, o4] => do
    let y ← fourDigits y1 y2 y3 y4
    let mo ← twoDigits m1 m2
    let d ← twoDigits d1 d2
    let h ← twoDigits h1 h2
    let mi ← twoDigits n1 n2
    let s ← twoDigits s1 s2
    let oh ← twoDigits o1 o2
    let om ← twoDigits o3 o4
    let sign : Int ← (if sg = '+' then some 1 else if sg = '-' then some (-1) else none)
    if 1 ≤ y ∧ 1 ≤ mo ∧ mo ≤ 12 ∧ 1 ≤ d ∧ d ≤ daysInMonth y mo ∧
        h ≤ 23 ∧ mi ≤ 59 ∧ s ≤ 59 ∧ oh ≤ 23 ∧ om ≤ 59 then
      some (epochOf y mo d h mi s - sign * (oh * 3600 + om * 60 : Nat))
    else none
  | _ => none

/-- Model of line 79/113 of the source:
`datetime.fromisoformat(end.replace('Z', '+00:00')).astimezone(timezone.utc)`,
as epoch seconds.  `none` models the `ValueError` raised on malformed input. -/
def parse_date_end (s : String) : Option Int :=
  fromisoformatUtc (replaceZ s.toList)

/-- Abbreviated weekday names accepted by `%a`. -/
def DAY_NAMES : List String := ["Mon", "Tue", "Wed", "Thu", "Fri", "Sat", "Sun"]

/-- Abbreviated month names accepted by `%b`, in order. -/
def MONTH_NAMES : List String :=
  ["Jan", "Feb", "Mar", "Apr", "May", "Jun", "Jul", "Aug", "Sep", "Oct", "Nov", "Dec"]

/-- Model of `datetime.strptime(s, '%a, %d %b %Y %H:%M:%S GMT')` with
`tzinfo = utc` (line 62 of the source), as epoch seconds; `none` models the
`ValueError`/`TypeError` raised on a malformed header.  As in `strptime`,
the weekday name is validated but not checked for consistency with the
date. -/
def parse_rfc1123 (s : String) : Option Int :=
  match s.toList with
  | [w1, w2, w3, ',', ' ', d1, d2, ' ', b1, b2, b3, ' ', y1, y2, y3, y4, ' ',
     h1, h2, ':', n1, n2, ':', c1, c2, ' ', 'G', 'M', 'T'] => do
    let wd := String.mk [w1, w2, w3]
    if DAY_NAMES.contains wd then do
      let d ← twoDigits d1 d2
      let mo0 ← MONTH_NAMES.indexOf? (String.mk [b1, b2, b3])
      let mo := mo0 + 1
      let y ← fourDigits y1 y2 y3 y4
      let h ← twoDigits h1 h2
      let mi ← twoDigits n1 n2
      let c ← twoDigits c1 c2
      if 1 ≤ y ∧ 1 ≤ d ∧ d ≤ daysInMonth y mo ∧ h ≤ 23 ∧ mi ≤ 59 ∧ c ≤ 59 then
        some (epochOf y mo d h mi c)
      else none
    else none
  | _ => none

/-- The tracked categories (line 12 of the source), in their fixed
processing order. -/
def CATEGORIES : List String := ["seed_stock", "gear_stock", "egg_stock"]

/-- The watchlist `TARGET` (lines 13-17); only membership of display names
is ever tested on it. -/
def TARGET : List String :=
  ["Master Sprinkler", "Godly Sprinkler", "Bug Egg", "Bee Egg",
   "Burning Bud", "Sugar Apple", "Ember Lily",
   "Beanstalk", "Tanning Mirror", "Lightning Rod"]

/-- `POLL_AFTER_END = 5` (line 27): fallback polling interval in seconds. -/
def POLL_AFTER_END : Int := 5

/-- One step of the accumulating dictionary of `aggregate_by_item_id`
(lines 29-37): a known `item_id` adds to the stored entry's quantity, a
new one appends a copy of the record. -/
def aggAux (acc : List ItemRecord) (it : ItemRecord) : List ItemRecord :=
  if acc.any (fun a => a.item_id == it.item_id) then
    acc.map (fun a =>
      if a.item_id == it.item_id then { a with quantity := a.quantity + it.quantity } else a)
  else acc ++ [it]

/-- `aggregate_by_item_id` (lines 29-37): fold the items into an
insertion-ordered dictionary keyed by `item_id` and return its values. -/
def aggregate_by_item_id (items : List ItemRecord) : List ItemRecord :=
  items.foldl aggAux []

/-- The watchlist filter, inlined twice in the source (lines 86 and 121):
`[it for it in agg if it['display_name'] in TARGET and it['quantity'] > 0]`. -/
def target_filter (items : List ItemRecord) : List ItemRecord :=
  items.filter (fun it => TARGET.contains it.display_name && decide (0 < it.quantity))

/-- Snapshot body: the decoded JSON object, a map from category name to its
ordered raw item list (association list in key order). -/
abbrev ApiData := List (String × List ItemRecord)

/-- `data.get(cat, [])` (lines 75 and 105). -/
def dataGet (d : ApiData) (cat : String) : List ItemRecord :=
  match d.find? (fun p => p.1 == cat) with
  | some p => p.2
  | none => []

/-- Dictionary lookup: `dict.get(k)` semantics (absent key gives `none`). -/
def dictGet {α : Type} (l : List (String × α)) (k : String) : Option α :=
  (l.find? (fun p => p.1 == k)).map (·.2)

/-- Dictionary store `dict[k] = v`: present keys are updated in place
(insertion order preserved), absent keys are appended. -/
def dictSet {α : Type} (l : List (String × α)) (k : String) (v : α) : List (String × α) :=
  if l.any (fun p => p.1 == k) then
    l.map (fun p => if p.1 == k then (k, v) else p)
  else l ++ [(k, v)]

/-- The monitor's mutable state: the dictionaries `last_start` and
`expected_ends` (lines 66-67) and the current `server_time` (epoch
seconds). -/
structure MonState where
  last_start : List (String × Option String)
  expected_ends : List (String × Int)
  server_time : Int
deriving DecidableEq

/-- `last_start.get(cat)` (line 107): `None` both for an absent key and a
stored `None`. -/
def last_start_get (st : MonState) (cat : String) : Option String :=
  (dictGet st.last_start cat).getD none

/-- The error classes a fetch can raise (exceptions of lines 58-62). -/
inductive FetchError where
  | network
  | httpStatus (code : Nat)
  | badBody
  | badDateHeader
deriving DecidableEq

/-- One HTTP exchange as the monitor observes it: status code, decoded JSON
body (`none` models an undecodable body), and the raw `Date` header
(`none` models a missing header). -/
structure HttpResponse where
  status : Nat
  jsonBody : Option ApiData
  dateHeader : Option String
deriving DecidableEq

/-- `fetch_stock` (lines 57-63).  The argument is the outcome of
`session.get`: `none` models a network error raised inside the client.
`raise_for_status` raises on status ≥ 400; `resp.json()` raises on an
undecodable body; `strptime` raises on a missing (`TypeError`) or
unparseable (`ValueError`) `Date` header.  On success it returns the
decoded data and the server time. -/
def fetch_stock (attempt : Option HttpResponse) : Except FetchError (ApiData × Int) :=
  match attempt with
  | none => .error .network
  | some r =>
    if 400 ≤ r.status then .error (.httpStatus r.status)
    else
      match r.jsonBody with
      | none => .error .badBody
      | some data =>
        match r.dateHeader with
        | none => .error .badDateHeader
        | some hdr =>
          match parse_rfc1123 hdr with
          | none => .error .badDateHeader
          | some t => .ok (data, t)

/-- Per-category outcome of one pass of the tracking loop body. -/
inductive CatOutcome where
  | skippedEmpty
  | noRotation
  | rotated (found : List ItemRecord)
  | parseError
deriving DecidableEq

/-- Loop body lines 104-126 for one category `cat`: empty list is skipped;
an unchanged `Date_Start` marker is no rotation; a changed marker first
stores the new marker (line 112), then parses `Date_End` — a parse failure
(`ValueError`) aborts with the marker already stored — then stores the
predicted end, aggregates and filters.  The returned state is the
dictionary state after the pass. -/
def process_category (st : MonState) (data : ApiData) (cat : String) :
    MonState × CatOutcome :=
  match dataGet data cat with
  | [] => (st, .skippedEmpty)
  | first :: rest =>
    let start := first.Date_Start
    if some start = last_start_get st cat then (st, .noRotation)
    else
      let st1 := { st with last_start := dictSet st.last_start cat (some start) }
      match parse_date_end first.Date_End with
      | none => (st1, .parseError)
      | some endT =>
        let st2 := { st1 with expected_ends := dictSet st1.expected_ends cat endT }
        let found := target_filter (aggregate_by_item_id (first :: rest))
        (st2, .rotated found)

/-- An alert that was dispatched: category name and the filtered items. -/
abbrev Alert := String × List ItemRecord

/-- The `for cat in CATEGORIES` loop of lines 104-126 over a category list:
threads the state, records dispatched alerts (an email is sent only when
the filtered list is non-empty, line 122), sets the `updated` flag on any
rotation, and aborts with the partial state, the alerts already sent and
the failing category when a `Date_End` parse error is raised. -/
def track_cats (st : MonState) (data : ApiData) :
    List String → Except (MonState × List Alert × String) (MonState × Bool × List Alert)
  | [] => .ok (st, false, [])
  | cat :: rest =>
    match process_category st data cat with
    | (st1, .parseError) => .error (st1, [], cat)
    | (st1, .rotated found) =>
      let here : List Alert := if found.isEmpty then [] else [(cat, found)]
      match track_cats st1 data rest with
      | .error (stE, aE, cE) => .error (stE, here ++ aE, cE)
      | .ok (st2, _, aR) => .ok (st2, true, here ++ aR)
    | (st1, .skippedEmpty) => track_cats st1 data rest
    | (st1, .noRotation) => track_cats st1 data rest

/-- Line 91: `[end for end in expected_ends.values() if end > now]` with
`now = server_time`. -/
def upcoming (st : MonState) : List Int :=
  (st.expected_ends.map (·.2)).filter (fun e => st.server_time < e)

/-- Observable outcome of one iteration of the `while True` loop
(lines 89-131).  `preWait` is the sleep taken before the iteration's fetch
(line 100); `fetchFailed` and `parseFailed` model exceptions propagating
out of `monitor`, `parseFailed` carrying the dictionary state at the point
the exception was raised and the alerts already dispatched. -/
inductive StepResult where
  | fetchFailed (preWait : Int) (err : FetchError)
  | refetched (st : MonState)
  | parseFailed (preWait : Int) (st : MonState) (alerts : List Alert) (cat : String)
  | cycled (preWait : Int) (st : MonState) (alerts : List Alert) (updated : Bool) (postWait : Int)
deriving DecidableEq

/-- Sleep taken before the iteration's fetch (zero on the empty-upcoming
immediate-refetch path). -/
def StepResult.preWait : StepResult → Int
  | .fetchFailed w _ => w
  | .refetched _ => 0
  | .parseFailed w _ _ _ => w
  | .cycled w _ _ _ _ => w

/-- Sleep taken after the iteration's tracking pass (`POLL_AFTER_END` on
the no-rotation fallback of lines 128-131, zero otherwise). -/
def StepResult.postWait : StepResult → Int
  | .cycled _ _ _ _ p => p
  | _ => 0

/-- State the loop continues with, `none` when the iteration's exception
terminated the run. -/
def StepResult.nextState : StepResult → Option MonState
  | .fetchFailed _ _ => none
  | .refetched st => some st
  | .parseFailed _ _ _ _ => none
  | .cycled _ st _ _ _ => some st

/-- One iteration of the `while True` loop (lines 89-131), given the
pre-state and the outcome of the single HTTP exchange this iteration
performs.  Empty upcoming set: immediate re-fetch, no detection
(lines 92-96).  Otherwise: sleep until the minimum upcoming end, fetch,
run the tracking pass, and sleep `POLL_AFTER_END` when no category rotated
(lines 128-131). -/
def loop_step (st : MonState) (attempt : Option HttpResponse) : StepResult :=
  match (upcoming st).min? with
  | none =>
    match fetch_stock attempt with
    | .error e => .fetchFailed 0 e
    | .ok (_, t) => .refetched { st with server_time := t }
  | some next_end =>
    let wait := next_end - st.server_time
    match fetch_stock attempt with
    | .error e => .fetchFailed wait e
    | .ok (data, t) =>
      let st1 := { st with server_time := t }
      match track_cats st1 data CATEGORIES with
      | .error (stp, alerts, cat) => .parseFailed wait stp alerts cat
      | .ok (st2, updated, alerts) =>
        .cycled wait st2 alerts updated (if updated then 0 else POLL_AFTER_END)

/-- Iterate `loop_step` for `n` iterations, feeding the `n`-th HTTP
exchange from `attempts`; `none` once the run has terminated on an
exception. -/
def run_loop (st : MonState) (attempts : Nat → Option HttpResponse) : Nat → Option MonState
  | 0 => some st
  | n + 1 =>
    match run_loop st attempts n with
    | none => none
    | some s => (loop_step s (attempts n)).nextState

/-- Specification-side helper: the first occurrence of each distinct
`item_id`, in first-occurrence order. -/
def firstsBy : List ItemRecord → List ItemRecord
  | [] => []
  | x :: xs => x :: firstsBy (xs.filter (fun y => y.item_id != x.item_id))
termination_by l => l.length
decreasing_by simp only [List.length_cons]; exact Nat.lt_succ_of_le (List.length_filter_le _ _)

/-- Specification-side helper: total quantity of the items carrying a given
`item_id`. -/
def sumQ (items : List ItemRecord) (i : Nat) : Int :=
  ((items.filter (fun r => r.item_id == i)).map (·.quantity)).sum

/-- Dictionary state at the end of a tracking pass (also on the abort
path, where it is the state at the point the exception was raised). -/
def trackState :
    Except (MonState × List Alert × String) (MonState × Bool × List Alert) → MonState
  | .ok (s, _, _) => s
  | .error (s, _, _) => s

/-- Alerts dispatched during a tracking pass (also on the abort path). -/
def trackAlerts :
    Except (MonState × List Alert × String) (MonState × Bool × List Alert) → List Alert
  | .ok (_, _, a) => a
  | .error (_, a, _) => a

/-- Fixture: a state in which seed and gear sessions are tracked and both
predictions are upcoming. -/
def stFix : MonState :=
  ⟨[("seed_stock", some "S1"), ("gear_stock", some "G1"), ("egg_stock", none)],
   [("seed_stock", 110), ("gear_stock", 112)], 100⟩

/-- Fixture: the seed item of a new session `S2` with a well-formed end. -/
def itemSeedS2 : ItemRecord := ⟨1, "Beanstalk", 3, "S2", "1970-01-01T00:02:30Z"⟩

/-- Fixture: the seed item of the already-stored session `S1`. -/
def itemSeedS1 : ItemRecord := ⟨1, "Beanstalk", 3, "S1", "1970-01-01T00:02:30Z"⟩

/-- Fixture: the gear item of the already-stored session `G1`. -/
def itemGearG1 : ItemRecord := ⟨7, "Carrot", 5, "G1", "1970-01-01T00:02:40Z"⟩

/-- Fixture: a seed item whose session rotated but whose `Date_End` is
malformed. -/
def itemSeedBad : ItemRecord := ⟨1, "Beanstalk", 3, "S2", "garbage"⟩

/-- Fixture: the gear item of a new session `G2` with a well-formed end. -/
def itemGearG2 : ItemRecord := ⟨7, "Carrot", 5, "G2", "1970-01-01T00:02:40Z"⟩

/-- Fixture: snapshot in which the seed session rotated and the gear one
did not. -/
def dataRot : ApiData :=
  [("seed_stock", [itemSeedS2]), ("gear_stock", [itemGearG1])]

/-- Fixture: snapshot in which no session rotated. -/
def dataSame : ApiData :=
  [("seed_stock", [itemSeedS1]), ("gear_stock", [itemGearG1])]

/-- Fixture: snapshot whose rotated seed session has a malformed `Date_End`
while a gear rotation is also pending. -/
def dataBad : ApiData :=
  [("seed_stock", [itemSeedBad]), ("gear_stock", [itemGearG2])]

/-- Fixture: a `Date` header that parses to epoch second 110. -/
def hdr110 : String := "Thu, 01 Jan 1970 00:01:50 GMT"

/-- Fixture: successful response delivering `dataRot` at server time 110. -/
def respRot : HttpResponse := ⟨200, some dataRot, some hdr110⟩

/-- Fixture: successful response delivering `dataSame` at server time 110. -/
def respSame : HttpResponse := ⟨200, some dataSame, some hdr110⟩

/-- Fixture: successful response delivering `dataBad` at server time 110. -/
def respBad : HttpResponse := ⟨200, some dataBad, some hdr110⟩

/-- Fixture: successful response with an empty snapshot at server time 110. -/
def respEmpty : HttpResponse := ⟨200, some [], some hdr110⟩

/-- Fixture: server error response. -/
def respErr : HttpResponse := ⟨500, some [], some hdr110⟩

/-- Fixture: state whose one prediction has already lapsed (upcoming set
empty). -/
def stLapsed : MonState := ⟨[("seed_stock", some "S1")], [("seed_stock", 100)], 100⟩

/-- Fixture: `stLapsed` after one immediate re-fetch at server time 110. -/
def stLapsed110 : MonState := ⟨[("seed_stock", some "S1")], [("seed_stock", 100)], 110⟩

/-- Fixture: state with a prediction at 100, before it lapses (server
time 50). -/
def stAhead : MonState := ⟨[("seed_stock", some "S1")], [("seed_stock", 100)], 50⟩

/-- Fixture: successful response at server time 60 whose snapshot has an
empty seed item list. -/
def respSeedEmpty : HttpResponse :=
  ⟨200, some [("seed_stock", [])], some "Thu, 01 Jan 1970 00:01:00 GMT"⟩

/-- Fixture: `stAhead` after the cycle that fetched `respSeedEmpty`. -/
def stAhead60 : MonState := ⟨[("seed_stock", some "S1")], [("seed_stock", 100)], 60⟩

/-- Fixture: `stFix` after a no-rotation cycle fetched at server time 110. -/
def stFix110 : MonState :=
  ⟨[("seed_stock", some "S1"), ("gear_stock", some "G1"), ("egg_stock", none)],
   [("seed_stock", 110), ("gear_stock", 112)], 110⟩

/-- Fixture: `stFix` after the seed rotation of `dataRot` was processed at
server time 110. -/
def stFixRot : MonState :=
  ⟨[("seed_stock", some "S2"), ("gear_stock", some "G1"), ("egg_stock", none)],
   [("seed_stock", 150), ("gear_stock", 112)], 110⟩

/-- Fixture: `stFix` at the moment the malformed `Date_End` of `dataBad`
raised: the seed marker is already updated, nothing else is. -/
def stFixBad : MonState :=
  ⟨[("seed_stock", some "S2"), ("gear_stock", some "G1"), ("egg_stock", none)],
   [("seed_stock", 110), ("gear_stock", 112)], 110⟩

/-- Fixture: a state that is a fixed point of the immediate-refetch path
when every fetch reports server time 110. -/
def stStuck : MonState := ⟨[("seed_stock", some "S1")], [("seed_stock", 100)], 110⟩

/-- Fixture: an attempt stream that always succeeds with the empty snapshot
at server time 110. -/
def attEmpty : Nat → Option HttpResponse := fun _ => some respEmpty

theorem find?_map_upd {α : Type} (l : List (String × α)) (k k' : String) (v : α)
    (hne : k ≠ k') :
    (l.map (fun p => if p.1 == k then (k, v) else p)).find? (fun p => p.1 == k')
      = l.find? (fun p => p.1 == k') := by
  induction l with
  | nil => rfl
  | cons p l ih =>
    by_cases hp : p.1 = k
    · have h1 : ¬ ((fun q : String × α => q.1 == k') (k, v)) = true := by simp [hne]
      have h2 : ¬ ((fun q : String × α => q.1 == k') p) = true := by simp [hp, hne]
      simp only [List.map_cons, hp, beq_self_eq_true, if_true]
      rw [@List.find?_cons_of_neg _ (fun q : String × α => q.1 == k') (k, v) _ h1,
        @List.find?_cons_of_neg _ (fun q : String × α => q.1 == k') p _ h2, ih]
    · have h1 : (p.1 == k) = false := by simp [hp]
      simp only [List.map_cons, h1, Bool.false_eq_true, if_false]
      by_cases hk : p.1 = k'
      · have h2 : ((fun q : String × α => q.1 == k') p) = true := by simp [hk]
        rw [@List.find?_cons_of_pos _ (fun q : String × α => q.1 == k') p _ h2,
          @List.find?_cons_of_pos _ (fun q : String × α => q.1 == k') p _ h2]
      · have h2 : ¬ ((fun q : String × α => q.1 == k') p) = true := by simp [hk]
        rw [@List.find?_cons_of_neg _ (fun q : String × α => q.1 == k') p _ h2,
          @List.find?_cons_of_neg _ (fun q : String × α => q.1 == k') p _ h2, ih]

theorem find?_append_nokey {α : Type} (l : List (String × α)) (k k' : String) (v : α)
    (hne : k ≠ k') :
    (l ++ [(k, v)]).find? (fun p => p.1 == k') = l.find? (fun p => p.1 == k') := by
  induction l with
  | nil =>
    have h1 : ¬ ((fun q : String × α => q.1 == k') (k, v)) = true := by simp [hne]
    rw [List.nil_append, @List.find?_cons_of_neg _ (fun q : String × α => q.1 == k') (k, v) _ h1]
  | cons p l ih =>
    by_cases hk : p.1 = k'
    · have h2 : ((fun q : String × α => q.1 == k') p) = true := by simp [hk]
      rw [List.cons_append, @List.find?_cons_of_pos _ (fun q : String × α => q.1 == k') p _ h2,
        @List.find?_cons_of_pos _ (fun q : String × α => q.1 == k') p _ h2]
    · have h2 : ¬ ((fun q : String × α => q.1 == k') p) = true := by simp [hk]
      rw [List.cons_append, @List.find?_cons_of_neg _ (fun q : String × α => q.1 == k') p _ h2,
        @List.find?_cons_of_neg _ (fun q : String × α => q.1 == k') p _ h2, ih]

theorem dictGet_dictSet_ne {α : Type} (l : List (String × α)) (k k' : String) (v : α)
    (hne : k ≠ k') : dictGet (dictSet l k v) k' = dictGet l k' := by
  unfold dictGet dictSet
  by_cases h : l.any (fun p => p.1 == k)
  · rw [if_pos h, find?_map_upd l k k' v hne]
  · rw [if_neg h, find?_append_nokey l k k' v hne]

theorem dictGet_mem_values {α : Type} (l : List (String × α)) (k : String) (v : α)
    (h : dictGet l k = some v) : v ∈ l.map (·.2) := by
  unfold dictGet at h
  cases hf : l.find? (fun p => p.1 == k) with
  | none => rw [hf] at h; simp at h
  | some p =>
    rw [hf] at h
    simp only [Option.map_some'] at h
    injection h with h
    have hmem := List.mem_of_find?_eq_some hf
    exact h ▸ List.mem_map_of_mem _ hmem

theorem process_category_nil (st : MonState) (data : ApiData) (cat : String)
    (h : dataGet data cat = []) : process_category st data cat = (st, .skippedEmpty) := by
  unfold process_category
  rw [h]

theorem process_category_same (st : MonState) (data : ApiData) (cat : String)
    (first : ItemRecord) (rest : List ItemRecord)
    (h : dataGet data cat = first :: rest)
    (heq : some first.Date_Start = last_start_get st cat) :
    process_category st data cat = (st, .noRotation) := by
  unfold process_category
  rw [h]
  simp only [heq, if_true]

theorem process_category_parse_error (st : MonState) (data : ApiData) (cat : String)
    (first : ItemRecord) (rest : List ItemRecord)
    (h : dataGet data cat = first :: rest)
    (hdiff : some first.Date_Start ≠ last_start_get st cat)
    (hbad : parse_date_end first.Date_End = none) :
    process_category st data cat =
      ({ st with last_start := dictSet st.last_start cat (some first.Date_Start) },
       .parseError) := by
  unfold process_category
  rw [h]
  simp only [if_neg hdiff, hbad]

theorem process_category_rotated (st : MonState) (data : ApiData) (cat : String)
    (first : ItemRecord) (rest : List ItemRecord) (endT : Int)
    (h : dataGet data cat = first :: rest)
    (hdiff : some first.Date_Start ≠ last_start_get st cat)
    (hparse : parse_date_end first.Date_End = some endT) :
    process_category st data cat =
      ({ st with
          last_start := dictSet st.last_start cat (some first.Date_Start),
          expected_ends := dictSet st.expected_ends cat endT },
       .rotated (target_filter (aggregate_by_item_id (first :: rest)))) := by
  unfold process_category
  rw [h]
  simp only [if_neg hdiff, hparse]

theorem process_category_other (st : MonState) (data : ApiData) (c cat : String)
    (hne : c ≠ cat) :
    last_start_get (process_category st data c).1 cat = last_start_get st cat ∧
    dictGet (process_category st data c).1.expected_ends cat
      = dictGet st.expected_ends cat := by
  cases h : dataGet data c with
  | nil => rw [process_category_nil st data c h]; exact ⟨rfl, rfl⟩
  | cons first rest =>
    by_cases heq : some first.Date_Start = last_start_get st c
    · rw [process_category_same st data c first rest h heq]; exact ⟨rfl, rfl⟩
    · cases hp : parse_date_end first.Date_End with
      | none =>
        rw [process_category_parse_error st data c first rest h heq hp]
        exact ⟨by simp [last_start_get, dictGet_dictSet_ne _ _ _ _ hne], rfl⟩
      | some endT =>
        rw [process_category_rotated st data c first rest endT h heq hp]
        exact ⟨by simp [last_start_get, dictGet_dictSet_ne _ _ _ _ hne],
          by simp [dictGet_dictSet_ne _ _ _ _ hne]⟩

theorem track_cats_preserve (data : ApiData) (cat : String)
    (first : ItemRecord) (rest : List ItemRecord)
    (hitems : dataGet data cat = first :: rest) :
    ∀ (l : List String) (st : MonState),
      last_start_get st cat = some first.Date_Start →
      last_start_get (trackState (track_cats st data l)) cat = last_start_get st cat
      ∧ dictGet (trackState (track_cats st data l)).expected_ends cat
          = dictGet st.expected_ends cat
      ∧ ∀ f, (cat, f) ∉ trackAlerts (track_cats st data l) := by
  intro l
  induction l with
  | nil => intro st hm; exact ⟨rfl, rfl, by simp [track_cats, trackAlerts]⟩
  | cons c l ih =>
    intro st hm
    by_cases hc : c = cat
    · subst hc
      rw [show track_cats st data (c :: l) = track_cats st data l by
        simp [track_cats, process_category_same st data c first rest hitems hm.symm]]
      exact ih st hm
    · have hother := process_category_other st data c cat hc
      rcases hpr : process_category st data c with ⟨st1, o⟩
      rw [hpr] at hother
      have hm1 : last_start_get st1 cat = some first.Date_Start := by
        rw [hother.1.symm] at hm; exact hm
      cases o with
      | skippedEmpty =>
        rw [show track_cats st data (c :: l) = track_cats st1 data l by
          simp [track_cats, hpr]]
        have hrec := ih st1 hm1
        exact ⟨hrec.1.trans hother.1, (hrec.2.1).trans hother.2, hrec.2.2⟩
      | noRotation =>
        rw [show track_cats st data (c :: l) = track_cats st1 data l by
          simp [track_cats, hpr]]
        have hrec := ih st1 hm1
        exact ⟨hrec.1.trans hother.1, (hrec.2.1).trans hother.2, hrec.2.2⟩
      | parseError =>
        rw [show track_cats st data (c :: l) = .error (st1, [], c) by
          simp [track_cats, hpr]]
        exact ⟨hother.1, hother.2, by simp [trackAlerts]⟩
      | rotated found =>
        have hrec := ih st1 hm1
        have hnotc : ∀ f : List ItemRecord,
            (cat, f) ∉ (if found.isEmpty then ([] : List Alert) else [(c, found)]) := by
          intro f hmem
          by_cases he : found.isEmpty <;> simp [he] at hmem
          exact hc (hmem.1.symm)
        cases htr : track_cats st1 data l with
        | error e =>
          rcases e with ⟨stE, aE, cE⟩
          rw [show track_cats st data (c :: l) =
              .error (stE, (if found.isEmpty then ([] : List Alert) else [(c, found)]) ++ aE, cE) by
            simp [track_cats, hpr, htr]]
          rw [htr] at hrec
          refine ⟨?_, ?_, ?_⟩
          · exact (show last_start_get stE cat = _ from hrec.1).trans hother.1
          · exact (show dictGet stE.expected_ends cat = _ from hrec.2.1).trans hother.2
          · intro f hmem
            rcases List.mem_append.mp hmem with hmem | hmem
            · exact hnotc f hmem
            · exact hrec.2.2 f hmem
        | ok r =>
          rcases r with ⟨st2, u, aR⟩
          rw [show track_cats st data (c :: l) =
              .ok (st2, true, (if found.isEmpty then ([] : List Alert) else [(c, found)]) ++ aR) by
            simp [track_cats, hpr, htr]]
          rw [htr] at hrec
          refine ⟨?_, ?_, ?_⟩
          · exact (show last_start_get st2 cat = _ from hrec.1).trans hother.1
          · exact (show dictGet st2.expected_ends cat = _ from hrec.2.1).trans hother.2
          · intro f hmem
            rcases List.mem_append.mp hmem with hmem | hmem
            · exact hnotc f hmem
            · exact hrec.2.2 f hmem

theorem dictGet_dictSet_self {α : Type} (l : List (String × α)) (k : String) (v : α) :
    dictGet (dictSet l k v) k = some v := by
  unfold dictGet dictSet
  by_cases h : l.any (fun p => p.1 == k)
  · rw [if_pos h]
    induction l with
    | nil => simp at h
    | cons p l ih =>
      by_cases hp : p.1 = k
      · simp only [List.map_cons, hp, beq_self_eq_true, if_true]
        rw [@List.find?_cons_of_pos _ (fun q : String × α => q.1 == k) (k, v) _
          (by simp)]
        rfl
      · have h1 : (p.1 == k) = false := by simp [hp]
        have h2 : l.any (fun p => p.1 == k) := by
          rcases List.any_eq_true.mp h with ⟨q, hq, hqk⟩
          cases List.mem_cons.mp hq with
          | inl hq1 => exact absurd (by simpa [hq1] using hqk) hp
          | inr hq2 => exact List.any_eq_true.mpr ⟨q, hq2, hqk⟩
        simp only [List.map_cons, h1, Bool.false_eq_true, if_false]
        rw [@List.find?_cons_of_neg _ (fun q : String × α => q.1 == k) p _ (by simp [hp])]
        exact ih h2
  · rw [if_neg h]
    have hall : l.find? (fun q : String × α => q.1 == k) = none := by
      rw [List.find?_eq_none]
      intro p hp hbad
      exact h (List.any_eq_true.mpr ⟨p, hp, hbad⟩)
    rw [List.find?_append, hall, Option.none_or,
      @List.find?_cons_of_pos _ (fun q : String × α => q.1 == k) (k, v) _ (by simp)]
    rfl

theorem process_category_keeps_end (st : MonState) (data : ApiData) (c cat : String)
    (e : Int) (he : dictGet st.expected_ends cat = some e) :
    ∃ e2, dictGet (process_category st data c).1.expected_ends cat = some e2 := by
  by_cases hc : c = cat
  · subst hc
    cases h : dataGet data c with
    | nil => exact ⟨e, by rw [process_category_nil st data c h]; exact he⟩
    | cons first rest =>
      by_cases heq : some first.Date_Start = last_start_get st c
      · exact ⟨e, by rw [process_category_same st data c first rest h heq]; exact he⟩
      · cases hp : parse_date_end first.Date_End with
        | none =>
          exact ⟨e, by rw [process_category_parse_error st data c first rest h heq hp]; exact he⟩
        | some endT =>
          exact ⟨endT, by
            rw [process_category_rotated st data c first rest endT h heq hp]
            exact dictGet_dictSet_self _ _ _⟩
  · exact ⟨e, by rw [(process_category_other st data c cat hc).2]; exact he⟩

/-- C1: for a non-empty category item list whose first record's session-start
marker differs from the stored last-seen marker (including a null stored
marker, the first-seen case), the tracker detects a rotation: it stores the
new marker, recomputes the predicted end as the parsed absolute UTC instant
of the first record's `Date_End`, aggregates the items, filters them against
the watchlist, and an alert is dispatched for the category if and only if
the filtered list is non-empty. -/
theorem C1_rotation_detected (st : MonState) (data : ApiData) (cat : String)
    (first : ItemRecord) (rest : List ItemRecord) (endT : Int)
    (hitems : dataGet data cat = first :: rest)
    (hdiff : some first.Date_Start ≠ last_start_get st cat)
    (hparse : parse_date_end first.Date_End = some endT) :
    process_category st data cat =
      ({ st with
          last_start := dictSet st.last_start cat (some first.Date_Start),
          expected_ends := dictSet st.expected_ends cat endT },
       .rotated (target_filter (aggregate_by_item_id (first :: rest))))
    ∧ track_cats st data [cat] =
        .ok ({ st with
                last_start := dictSet st.last_start cat (some first.Date_Start),
                expected_ends := dictSet st.expected_ends cat endT },
             true,
             if (target_filter (aggregate_by_item_id (first :: rest))).isEmpty
             then [] else [(cat, target_filter (aggregate_by_item_id (first :: rest)))]) := by
  have h1 := process_category_rotated st data cat first rest endT hitems hdiff hparse
  refine ⟨h1, ?_⟩
  simp [track_cats, h1]

/-- Witness for C1 at a concrete rotated snapshot. -/
theorem C1_rotation_detected_witness :
    dataGet dataRot "seed_stock" = itemSeedS2 :: []
    ∧ some itemSeedS2.Date_Start ≠ last_start_get stFix "seed_stock"
    ∧ parse_date_end itemSeedS2.Date_End = some 150
    ∧ process_category stFix dataRot "seed_stock" =
        ({ stFix with
            last_start := dictSet stFix.last_start "seed_stock" (some itemSeedS2.Date_Start),
            expected_ends := dictSet stFix.expected_ends "seed_stock" 150 },
         .rotated (target_filter (aggregate_by_item_id (itemSeedS2 :: [])))) :=
  ⟨rfl, by decide, rfl,
   (C1_rotation_detected stFix dataRot "seed_stock" itemSeedS2 [] 150 rfl (by decide) rfl).1⟩

/-- C2: for a non-empty category item list whose first record's marker
equals the stored one, the tracker reports no rotation and returns the
state unchanged; moreover over the whole cycle the category's stored marker
and predicted end are unchanged and no alert is dispatched for it. -/
theorem C2_no_rotation (st : MonState) (data : ApiData) (cat : String)
    (first : ItemRecord) (rest : List ItemRecord)
    (hitems : dataGet data cat = first :: rest)
    (heq : last_start_get st cat = some first.Date_Start) :
    process_category st data cat = (st, .noRotation)
    ∧ last_start_get (trackState (track_cats st data CATEGORIES)) cat = last_start_get st cat
    ∧ dictGet (trackState (track_cats st data CATEGORIES)).expected_ends cat
        = dictGet st.expected_ends cat
    ∧ ∀ f, (cat, f) ∉ trackAlerts (track_cats st data CATEGORIES) :=
  ⟨process_category_same st data cat first rest hitems heq.symm,
   track_cats_preserve data cat first rest hitems CATEGORIES st heq⟩

/-- Witness for C2 at a concrete unchanged snapshot. -/
theorem C2_no_rotation_witness :
    dataGet dataSame "seed_stock" = itemSeedS1 :: []
    ∧ last_start_get stFix "seed_stock" = some itemSeedS1.Date_Start
    ∧ process_category stFix dataSame "seed_stock" = (stFix, .noRotation) :=
  ⟨rfl, rfl, (C2_no_rotation stFix dataSame "seed_stock" itemSeedS1 [] rfl rfl).1⟩

/-- Counterexample to C5: a non-initial fetch whose seed item list is empty
for a category holding the prediction 100 leaves that prediction stored —
it is not cleared to null — and 100 is still in the Scheduler's prediction
set (and even in the upcoming set, since it exceeds the new server time). -/
theorem C5_counterexample :
    dataGet [("seed_stock", [])] "seed_stock" = []
    ∧ dictGet stAhead.expected_ends "seed_stock" = some 100
    ∧ loop_step stAhead (some respSeedEmpty) = .cycled 50 stAhead60 [] false POLL_AFTER_END
    ∧ dictGet stAhead60.expected_ends "seed_stock" = some 100
    ∧ upcoming stAhead60 = [100] :=
  ⟨rfl, rfl, rfl, rfl, rfl⟩

/-- C5 as amended: when a fetch yields an empty item list for a category,
the tracking pass leaves that category's state entirely unchanged — the
stored marker and predicted end are retained, and a stored predicted end
remains in the Scheduler's prediction set; more generally, processing never
clears a stored predicted end to null, it only overwrites it with a new
instant on rotation. -/
theorem C5_empty_list_keeps_prediction (st : MonState) (data : ApiData) (cat : String)
    (hempty : dataGet data cat = []) :
    process_category st data cat = (st, .skippedEmpty)
    ∧ (∀ e, dictGet st.expected_ends cat = some e →
        dictGet (process_category st data cat).1.expected_ends cat = some e
        ∧ e ∈ ((process_category st data cat).1.expected_ends.map (·.2)))
    ∧ (∀ (data2 : ApiData) (c : String) (e : Int),
        dictGet st.expected_ends cat = some e →
        ∃ e2, dictGet (process_category st data2 c).1.expected_ends cat = some e2) := by
  have h1 := process_category_nil st data cat hempty
  refine ⟨h1, fun e he => ?_, fun data2 c e he => process_category_keeps_end st data2 c cat e he⟩
  rw [h1]
  exact ⟨he, dictGet_mem_values _ _ _ he⟩

/-- Witness for the amended C5 at a concrete empty snapshot. -/
theorem C5_empty_list_keeps_prediction_witness :
    dataGet [("seed_stock", [])] "seed_stock" = []
    ∧ dictGet stAhead.expected_ends "seed_stock" = some 100
    ∧ process_category stAhead [("seed_stock", [])] "seed_stock" = (stAhead, .skippedEmpty)
    ∧ dictGet (process_category stAhead [("seed_stock", [])] "seed_stock").1.expected_ends
        "seed_stock" = some 100 :=
  ⟨rfl, rfl, (C5_empty_list_keeps_prediction stAhead [("seed_stock", [])] "seed_stock" rfl).1,
   ((C5_empty_list_keeps_prediction stAhead [("seed_stock", [])] "seed_stock" rfl).2.1 100 rfl).1⟩

/-- Counterexample to C7: with a malformed seed `Date_End` and a pending
gear rotation in the same snapshot, the cycle aborts on the seed parse
failure: the run terminates, the seed marker has already been updated from
S1 to S2 (state partially updated), and gear — though its marker G2 differs
from the stored G1 — is never processed, its state left at G1. -/
theorem C7_counterexample :
    loop_step stFix (some respBad) = .parseFailed 10 stFixBad [] "seed_stock"
    ∧ (loop_step stFix (some respBad)).nextState = none
    ∧ last_start_get stFix "seed_stock" = some "S1"
    ∧ last_start_get stFixBad "seed_stock" = some "S2"
    ∧ dictGet stFixBad.expected_ends "seed_stock" = dictGet stFix.expected_ends "seed_stock"
    ∧ dataGet dataBad "gear_stock" = [itemGearG2]
    ∧ some itemGearG2.Date_Start ≠ last_start_get stFixBad "gear_stock"
    ∧ last_start_get stFixBad "gear_stock" = last_start_get stFix "gear_stock" :=
  ⟨rfl, rfl, rfl, rfl, rfl, rfl, by decide, rfl⟩

/-- C7 as amended: a malformed `Date_End` on a rotated category raises a
parse error that is signaled, never silently defaulted to no prediction —
but the exception aborts the whole tracking pass: no category after the
failing one is processed, no further alert is dispatched, and the failing
category's state is partially updated, its stored marker already set to the
new value while its predicted end is left unchanged. -/
theorem C7_parse_failure_aborts_cycle (st : MonState) (data : ApiData) (cat : String)
    (first : ItemRecord) (rest : List ItemRecord) (restCats : List String)
    (hitems : dataGet data cat = first :: rest)
    (hdiff : some first.Date_Start ≠ last_start_get st cat)
    (hbad : parse_date_end first.Date_End = none) :
    process_category st data cat =
      ({ st with last_start := dictSet st.last_start cat (some first.Date_Start) },
       .parseError)
    ∧ track_cats st data (cat :: restCats) =
        .error ({ st with last_start := dictSet st.last_start cat (some first.Date_Start) },
          [], cat) := by
  have h1 := process_category_parse_error st data cat first rest hitems hdiff hbad
  exact ⟨h1, by simp [track_cats, h1]⟩

/-- Witness for the amended C7 at a concrete malformed snapshot. -/
theorem C7_parse_failure_aborts_cycle_witness :
    dataGet dataBad "seed_stock" = itemSeedBad :: []
    ∧ some itemSeedBad.Date_Start ≠ last_start_get stFix "seed_stock"
    ∧ parse_date_end itemSeedBad.Date_End = none
    ∧ track_cats stFix dataBad ["seed_stock", "gear_stock", "egg_stock"] =
        .error ({ stFix with
          last_start := dictSet stFix.last_start "seed_stock" (some itemSeedBad.Date_Start) },
          [], "seed_stock") :=
  ⟨rfl, by decide, rfl,
   (C7_parse_failure_aborts_cycle stFix dataBad "seed_stock" itemSeedBad []
     ["gear_stock", "egg_stock"] rfl (by decide) rfl).2⟩

theorem upcoming_min?_lt (st : MonState) (m : Int) (h : (upcoming st).min? = some m) :
    st.server_time < m := by
  have hmem : m ∈ upcoming st := List.min?_mem (fun a b => min_choice a b) h
  unfold upcoming at hmem
  have h2 := List.mem_filter.mp hmem
  exact of_decide_eq_true h2.2

theorem upcoming_stays_empty (s : MonState) (t : Int) (h : upcoming s = [])
    (hle : s.server_time ≤ t) : upcoming { s with server_time := t } = [] := by
  unfold upcoming at h ⊢
  rw [List.filter_eq_nil_iff] at h ⊢
  intro e he
  have h1 := h e he
  simp only [decide_eq_true_eq] at h1 ⊢
  omega

theorem loop_step_none_err (st : MonState) (attempt : Option HttpResponse) (e : FetchError)
    (hm : (upcoming st).min? = none) (hf : fetch_stock attempt = .error e) :
    loop_step st attempt = .fetchFailed 0 e := by
  unfold loop_step
  rw [hm, hf]

theorem loop_step_none_ok (st : MonState) (attempt : Option HttpResponse)
    (data : ApiData) (t : Int)
    (hm : (upcoming st).min? = none) (hf : fetch_stock attempt = .ok (data, t)) :
    loop_step st attempt = .refetched { st with server_time := t } := by
  unfold loop_step
  rw [hm, hf]

theorem loop_step_some_err (st : MonState) (attempt : Option HttpResponse)
    (m : Int) (e : FetchError)
    (hm : (upcoming st).min? = some m) (hf : fetch_stock attempt = .error e) :
    loop_step st attempt = .fetchFailed (m - st.server_time) e := by
  unfold loop_step
  rw [hm, hf]

theorem loop_step_some_parse (st : MonState) (attempt : Option HttpResponse)
    (m : Int) (data : ApiData) (t : Int) (stp : MonState) (alerts : List Alert) (cat : String)
    (hm : (upcoming st).min? = some m) (hf : fetch_stock attempt = .ok (data, t))
    (ht : track_cats { st with server_time := t } data CATEGORIES = .error (stp, alerts, cat)) :
    loop_step st attempt = .parseFailed (m - st.server_time) stp alerts cat := by
  unfold loop_step
  rw [hm, hf]
  dsimp only
  rw [ht]

theorem loop_step_some_cycled (st : MonState) (attempt : Option HttpResponse)
    (m : Int) (data : ApiData) (t : Int) (st2 : MonState) (u : Bool) (alerts : List Alert)
    (hm : (upcoming st).min? = some m) (hf : fetch_stock attempt = .ok (data, t))
    (ht : track_cats { st with server_time := t } data CATEGORIES = .ok (st2, u, alerts)) :
    loop_step st attempt = .cycled (m - st.server_time) st2 alerts u
      (if u then 0 else POLL_AFTER_END) := by
  unfold loop_step
  rw [hm, hf]
  dsimp only
  rw [ht]

/-- C3: on every scheduling decision the upcoming set is exactly the stored
predicted ends strictly greater than the current server time; when it is
non-empty the wake target is its minimum and the sleep before the next
fetch is target minus server time; when it is empty the iteration takes the
immediate re-fetch path with zero wait. -/
theorem C3_scheduler_decision (st : MonState) (attempt : Option HttpResponse) :
    (∀ e : Int, e ∈ upcoming st ↔ e ∈ st.expected_ends.map (·.2) ∧ st.server_time < e)
    ∧ (∀ m, (upcoming st).min? = some m →
        (m ∈ upcoming st ∧ ∀ x ∈ upcoming st, m ≤ x)
        ∧ (loop_step st attempt).preWait = m - st.server_time)
    ∧ (upcoming st = [] →
        (loop_step st attempt).preWait = 0
        ∧ ∀ data t, fetch_stock attempt = .ok (data, t) →
            loop_step st attempt = .refetched { st with server_time := t }) := by
  refine ⟨?_, ?_, ?_⟩
  · intro e
    unfold upcoming
    simp [List.mem_filter]
  · intro m hm
    have anti : Std.Antisymm (fun x1 x2 : Int => x1 ≤ x2) :=
      ⟨fun h1 h2 => le_antisymm h1 h2⟩
    constructor
    · exact (@List.min?_eq_some_iff Int m _ _ anti
        (fun a => le_refl a) (fun a b => min_choice a b)
        (fun a b c => le_min_iff) (upcoming st)).mp hm
    · cases hf : fetch_stock attempt with
      | error e => rw [loop_step_some_err st attempt m e hm hf]; rfl
      | ok r =>
        rcases r with ⟨data, t⟩
        cases ht : track_cats { st with server_time := t } data CATEGORIES with
        | error e3 =>
          rcases e3 with ⟨stp, alerts, cat⟩
          rw [loop_step_some_parse st attempt m data t stp alerts cat hm hf ht]; rfl
        | ok r3 =>
          rcases r3 with ⟨st2, u, alerts⟩
          rw [loop_step_some_cycled st attempt m data t st2 u alerts hm hf ht]; rfl
  · intro hup
    have hm : (upcoming st).min? = none := by rw [hup]; rfl
    constructor
    · cases hf : fetch_stock attempt with
      | error e => rw [loop_step_none_err st attempt e hm hf]; rfl
      | ok r =>
        rcases r with ⟨data, t⟩
        rw [loop_step_none_ok st attempt data t hm hf]; rfl
    · intro data t hf
      exact loop_step_none_ok st attempt data t hm hf

/-- Witness for C3 at a concrete decision point. -/
theorem C3_scheduler_decision_witness :
    (upcoming stFix).min? = some 110
    ∧ (loop_step stFix (some respSame)).preWait = 110 - 100 :=
  ⟨rfl, ((C3_scheduler_decision stFix (some respSame)).2.1 110 rfl).2⟩

theorem loop_step_preWait_some (st : MonState) (attempt : Option HttpResponse) (m : Int)
    (hm : (upcoming st).min? = some m) :
    (loop_step st attempt).preWait = m - st.server_time := by
  cases hf : fetch_stock attempt with
  | error e => rw [loop_step_some_err st attempt m e hm hf]; rfl
  | ok r =>
    rcases r with ⟨data, t⟩
    cases ht : track_cats { st with server_time := t } data CATEGORIES with
    | error e3 =>
      rcases e3 with ⟨stp, alerts, cat⟩
      rw [loop_step_some_parse st attempt m data t stp alerts cat hm hf ht]; rfl
    | ok r3 =>
      rcases r3 with ⟨st2, u, alerts⟩
      rw [loop_step_some_cycled st attempt m data t st2 u alerts hm hf ht]; rfl

/-- Counterexample to C4: on the empty-upcoming fallback path an iteration
re-fetches with zero total wait and the loop continues, so not every loop
iteration waits a positive delay; and a no-rotation cycle sleeps the fixed
`POLL_AFTER_END = 5`, which is not strictly less than the session-based
wait that would have been computed next (here 112 − 110 = 2). -/
theorem C4_counterexample :
    upcoming stLapsed = []
    ∧ loop_step stLapsed (some respEmpty) = .refetched stLapsed110
    ∧ (loop_step stLapsed (some respEmpty)).preWait
        + (loop_step stLapsed (some respEmpty)).postWait = 0
    ∧ (loop_step stLapsed (some respEmpty)).nextState = some stLapsed110
    ∧ loop_step stFix (some respSame) = .cycled 10 stFix110 [] false POLL_AFTER_END
    ∧ (upcoming stFix110).min? = some 112
    ∧ ¬ (POLL_AFTER_END < 112 - stFix110.server_time) :=
  ⟨rfl, rfl, rfl, rfl, rfl, rfl, by decide⟩

/-- C4 as amended: a cycle whose tracking pass ran waits `POLL_AFTER_END`
after detecting zero rotations and nothing after detecting one, and its
pre-fetch sleep is strictly positive; but on the empty-upcoming fallback
path the iteration re-fetches immediately with zero total wait, so the loop
is not delay-bounded away from zero there. -/
theorem C4_fallback_waits (st : MonState) (attempt : Option HttpResponse) :
    (∀ (w : Int) (st2 : MonState) (alerts : List Alert) (u : Bool) (p : Int),
        loop_step st attempt = .cycled w st2 alerts u p →
        0 < w ∧ p = (if u then 0 else POLL_AFTER_END))
    ∧ (∀ m, (upcoming st).min? = some m → 0 < (loop_step st attempt).preWait)
    ∧ (upcoming st = [] →
        (loop_step st attempt).preWait = 0 ∧ (loop_step st attempt).postWait = 0) := by
  refine ⟨?_, ?_, ?_⟩
  · intro w st2 alerts u p hstep
    cases hm : (upcoming st).min? with
    | none =>
      cases hf : fetch_stock attempt with
      | error e => rw [loop_step_none_err st attempt e hm hf] at hstep; exact absurd hstep (by simp)
      | ok r =>
        rcases r with ⟨data, t⟩
        rw [loop_step_none_ok st attempt data t hm hf] at hstep
        exact absurd hstep (by simp)
    | some m =>
      have hlt := upcoming_min?_lt st m hm
      cases hf : fetch_stock attempt with
      | error e => rw [loop_step_some_err st attempt m e hm hf] at hstep; exact absurd hstep (by simp)
      | ok r =>
        rcases r with ⟨data, t⟩
        cases ht : track_cats { st with server_time := t } data CATEGORIES with
        | error e3 =>
          rcases e3 with ⟨stp, alerts2, cat⟩
          rw [loop_step_some_parse st attempt m data t stp alerts2 cat hm hf ht] at hstep
          exact absurd hstep (by simp)
        | ok r3 =>
          rcases r3 with ⟨st2h, uh, alertsh⟩
          rw [loop_step_some_cycled st attempt m data t st2h uh alertsh hm hf ht] at hstep
          have hinj := StepResult.cycled.inj hstep.symm
          refine ⟨?_, ?_⟩
          · rw [hinj.1]; omega
          · rw [hinj.2.2.2.2, hinj.2.2.2.1]
  · intro m hm
    rw [loop_step_preWait_some st attempt m hm]
    have hlt := upcoming_min?_lt st m hm
    omega
  · intro hup
    have hm : (upcoming st).min? = none := by rw [hup]; rfl
    cases hf : fetch_stock attempt with
    | error e => rw [loop_step_none_err st attempt e hm hf]; exact ⟨rfl, rfl⟩
    | ok r =>
      rcases r with ⟨data, t⟩
      rw [loop_step_none_ok st attempt data t hm hf]; exact ⟨rfl, rfl⟩

/-- Witness for the amended C4 at a concrete no-rotation cycle. -/
theorem C4_fallback_waits_witness :
    loop_step stFix (some respSame) = .cycled 10 stFix110 [] false POLL_AFTER_END
    ∧ (0 < (10 : Int) ∧ POLL_AFTER_END = (if false then 0 else POLL_AFTER_END)) :=
  ⟨rfl, (C4_fallback_waits stFix (some respSame)).1 10 stFix110 [] false POLL_AFTER_END rfl⟩

/-- C6: when the upcoming set is empty, the immediate re-fetch never runs
session-change detection: whatever the fetched snapshot, the iteration
returns with the stored markers and predicted ends of every category
unchanged and no alert, only the server time refreshed; consequently, as
long as fetched server times never decrease, the upcoming set stays empty
and the dictionaries stay fixed on every subsequent iteration. -/
theorem C6_refetch_no_detection (st : MonState) (attempt : Option HttpResponse)
    (hup : upcoming st = []) :
    (∀ data t, fetch_stock attempt = .ok (data, t) →
        loop_step st attempt = .refetched { st with server_time := t })
    ∧ (∀ data t, fetch_stock attempt = .ok (data, t) → st.server_time ≤ t →
        upcoming { st with server_time := t } = [])
    ∧ (∀ attempts : Nat → Option HttpResponse,
        (∀ n s, run_loop st attempts n = some s →
          ∀ data t, fetch_stock (attempts n) = .ok (data, t) → s.server_time ≤ t) →
        ∀ n s, run_loop st attempts n = some s →
          upcoming s = [] ∧ s.last_start = st.last_start
            ∧ s.expected_ends = st.expected_ends) := by
  have hm : (upcoming st).min? = none := by rw [hup]; rfl
  refine ⟨fun data t hf => loop_step_none_ok st attempt data t hm hf,
    fun data t hf hle => upcoming_stays_empty st t hup hle, ?_⟩
  intro attempts hmono n
  induction n with
  | zero =>
    intro s hs
    simp only [run_loop] at hs
    cases hs
    exact ⟨hup, rfl, rfl⟩
  | succ n ih =>
    intro s2 hs2
    simp only [run_loop] at hs2
    cases hr : run_loop st attempts n with
    | none => rw [hr] at hs2; exact absurd hs2 (by simp)
    | some s =>
      rw [hr] at hs2
      dsimp only at hs2
      have hprev := ih s hr
      have hm2 : (upcoming s).min? = none := by rw [hprev.1]; rfl
      cases hf : fetch_stock (attempts n) with
      | error e =>
        rw [loop_step_none_err s (attempts n) e hm2 hf] at hs2
        exact absurd hs2 (by simp [StepResult.nextState])
      | ok r =>
        rcases r with ⟨data, t⟩
        rw [loop_step_none_ok s (attempts n) data t hm2 hf] at hs2
        simp only [StepResult.nextState, Option.some.injEq] at hs2
        have hle := hmono n s hr data t hf
        rw [← hs2]
        exact ⟨upcoming_stays_empty s t hprev.1 hle, hprev.2.1, hprev.2.2⟩

/-- Witness for C6 on a concrete stuck state and a constant attempt stream. -/
theorem C6_refetch_no_detection_witness :
    upcoming stStuck = []
    ∧ fetch_stock (some respEmpty) = .ok ([], 110)
    ∧ loop_step stStuck (some respEmpty) = .refetched stStuck
    ∧ upcoming (trackState (.ok (stStuck, false, []))) = [] := by
  have hchar : ∀ n, run_loop stStuck attEmpty n = some stStuck := by
    intro n
    induction n with
    | zero => rfl
    | succ n ih => simp only [run_loop]; rw [ih]; rfl
  have hmono : ∀ n s, run_loop stStuck attEmpty n = some s →
      ∀ data t, fetch_stock (attEmpty n) = .ok (data, t) → s.server_time ≤ t := by
    intro n s hrun data t hf
    rw [hchar n] at hrun
    cases hrun
    have hf2 : (Except.ok ([], 110) : Except FetchError (ApiData × Int)) = .ok (data, t) := hf
    cases hf2
    decide
  refine ⟨rfl, rfl, ?_, ?_⟩
  · exact (C6_refetch_no_detection stStuck (some respEmpty) rfl).1 [] 110 rfl
  · exact ((C6_refetch_no_detection stStuck (some respEmpty) rfl).2.2 attEmpty hmono 3
      stStuck (hchar 3)).1

/-- C8: every failing fetch — network error, HTTP status at least 400,
undecodable body, missing or unparseable `Date` header — surfaces as an
error of `fetch_stock` which propagates out of the loop iteration: the run
terminates with no successor state, no retry, and no category state
modified. -/
theorem C8_fetch_failure_fatal (st : MonState) (attempt : Option HttpResponse)
    (e : FetchError) (hfail : fetch_stock attempt = .error e) :
    (loop_step st attempt).nextState = none
    ∧ (upcoming st = [] → loop_step st attempt = .fetchFailed 0 e)
    ∧ (∀ m, (upcoming st).min? = some m →
        loop_step st attempt = .fetchFailed (m - st.server_time) e)
    ∧ fetch_stock none = .error .network
    ∧ (∀ r : HttpResponse, 400 ≤ r.status →
        fetch_stock (some r) = .error (.httpStatus r.status))
    ∧ (∀ r : HttpResponse, r.status < 400 → r.jsonBody = none →
        fetch_stock (some r) = .error .badBody)
    ∧ (∀ (r : HttpResponse) (d : ApiData), r.status < 400 → r.jsonBody = some d →
        r.dateHeader = none → fetch_stock (some r) = .error .badDateHeader)
    ∧ (∀ (r : HttpResponse) (d : ApiData) (hd : String), r.status < 400 →
        r.jsonBody = some d → r.dateHeader = some hd → parse_rfc1123 hd = none →
        fetch_stock (some r) = .error .badDateHeader) := by
  refine ⟨?_, ?_, ?_, rfl, ?_, ?_, ?_, ?_⟩
  · cases hm : (upcoming st).min? with
    | none => rw [loop_step_none_err st attempt e hm hfail]; rfl
    | some m => rw [loop_step_some_err st attempt m e hm hfail]; rfl
  · intro hup
    have hm : (upcoming st).min? = none := by rw [hup]; rfl
    exact loop_step_none_err st attempt e hm hfail
  · intro m hm
    exact loop_step_some_err st attempt m e hm hfail
  · intro r hr
    simp only [fetch_stock]
    rw [if_pos hr]
  · intro r hr hb
    have hnot : ¬ 400 ≤ r.status := by omega
    simp only [fetch_stock, hb]
    rw [if_neg hnot]
  · intro r d hr hb hd
    have hnot : ¬ 400 ≤ r.status := by omega
    simp only [fetch_stock, hb, hd]
    rw [if_neg hnot]
  · intro r d hd2 hr hb hdh hp
    have hnot : ¬ 400 ≤ r.status := by omega
    simp only [fetch_stock, hb, hdh, hp]
    rw [if_neg hnot]

/-- Witness for C8 at a concrete server-error response. -/
theorem C8_fetch_failure_fatal_witness :
    fetch_stock (some respErr) = .error (.httpStatus 500)
    ∧ upcoming stLapsed = []
    ∧ loop_step stLapsed (some respErr) = .fetchFailed 0 (.httpStatus 500) :=
  ⟨rfl, rfl, (C8_fetch_failure_fatal stLapsed (some respErr) (.httpStatus 500) rfl).2.1 rfl⟩

theorem target_pred_eq (it : ItemRecord) :
    (TARGET.contains it.display_name && decide (0 < it.quantity))
      = decide (it.display_name ∈ TARGET ∧ 0 < it.quantity) := by
  by_cases h1 : it.display_name ∈ TARGET <;> by_cases h2 : (0 : Int) < it.quantity <;>
    simp [h1, h2]

/-- C10: the watchlist filter returns exactly the order-preserving
subsequence of its input whose display name is in the target set and whose
quantity is strictly positive: the output is a sublist of the input, an
item is in the output exactly when it is in the input and satisfies both
conditions, and filtering twice equals filtering once. -/
theorem C10_filter_spec (items : List ItemRecord) :
    target_filter items
      = items.filter (fun it => decide (it.display_name ∈ TARGET ∧ 0 < it.quantity))
    ∧ (target_filter items).Sublist items
    ∧ (∀ it, it ∈ target_filter items ↔
        it ∈ items ∧ it.display_name ∈ TARGET ∧ 0 < it.quantity)
    ∧ target_filter (target_filter items) = target_filter items := by
  refine ⟨?_, List.filter_sublist _, ?_, ?_⟩
  · unfold target_filter
    congr 1
    funext it
    exact target_pred_eq it
  · intro it
    unfold target_filter
    rw [List.mem_filter]
    constructor
    · rintro ⟨hmem, hcond⟩
      rw [target_pred_eq it] at hcond
      exact ⟨hmem, of_decide_eq_true hcond⟩
    · rintro ⟨hmem, hcond⟩
      exact ⟨hmem, by rw [target_pred_eq it]; exact decide_eq_true hcond⟩
  · unfold target_filter
    rw [List.filter_filter]
    congr 1
    funext it
    cases h : (TARGET.contains it.display_name && decide (0 < it.quantity)) <;> simp [h]

/-- Witness for C10 at a concrete aggregated list. -/
theorem C10_filter_spec_witness :
    itemSeedS1 ∈ target_filter [itemSeedS1, itemGearG1]
    ∧ itemSeedS1.display_name ∈ TARGET ∧ 0 < itemSeedS1.quantity :=
  ⟨by decide,
   (((C10_filter_spec [itemSeedS1, itemGearG1]).2.2.1 itemSeedS1).mp (by decide)).2⟩

theorem sumQ_nil (i : Nat) : sumQ [] i = 0 := rfl

theorem sumQ_cons (r : ItemRecord) (l : List ItemRecord) (i : Nat) :
    sumQ (r :: l) i = (if r.item_id = i then r.quantity else 0) + sumQ l i := by
  by_cases h : r.item_id = i
  · unfold sumQ
    rw [List.filter_cons_of_pos (by simp [h]), List.map_cons, List.sum_cons, if_pos h]
  · unfold sumQ
    rw [List.filter_cons_of_neg (by simp [h]), if_neg h, zero_add]

theorem sumQ_filter_keep (l : List ItemRecord) (p : ItemRecord → Bool) (i : Nat)
    (h : ∀ x, x.item_id = i → p x = true) :
    sumQ (l.filter p) i = sumQ l i := by
  induction l with
  | nil => rfl
  | cons x l ih =>
    by_cases hx : x.item_id = i
    · rw [List.filter_cons_of_pos (h x hx), sumQ_cons, sumQ_cons, ih]
    · by_cases hp : p x = true
      · rw [List.filter_cons_of_pos hp, sumQ_cons, sumQ_cons, ih]
      · rw [List.filter_cons_of_neg hp, ih, sumQ_cons, if_neg hx, zero_add]

theorem sumQ_eq_zero (l : List ItemRecord) (i : Nat)
    (h : ∀ x ∈ l, x.item_id ≠ i) : sumQ l i = 0 := by
  induction l with
  | nil => rfl
  | cons x l ih =>
    rw [sumQ_cons, if_neg (h x (List.mem_cons_self x l)), zero_add]
    exact ih (fun y hy => h y (List.mem_cons_of_mem x hy))

theorem any_map_bump (acc : List ItemRecord) (c : Nat) (q : Int) (x : Nat) :
    ((acc.map (fun a => if a.item_id == c
        then { a with quantity := a.quantity + q } else a)).any
      (fun a => a.item_id == x)) = acc.any (fun a => a.item_id == x) := by
  rw [List.any_map]
  apply congrArg
  funext a
  by_cases h : (a.item_id == c) = true <;> simp only [Function.comp, h, if_true,
    Bool.false_eq_true, if_false]

theorem foldl_aggAux_split_aux :
    ∀ (n : Nat) (l : List ItemRecord), l.length ≤ n → ∀ acc : List ItemRecord,
      l.foldl aggAux acc =
        acc.map (fun a => { a with quantity := a.quantity + sumQ l a.item_id })
        ++ (l.filter (fun x => !acc.any (fun a => a.item_id == x.item_id))).foldl aggAux [] := by
  intro n
  induction n with
  | zero =>
    intro l hl acc
    rw [List.length_eq_zero.mp (Nat.le_zero.mp hl)]
    simp only [List.foldl_nil, List.filter_nil, List.append_nil]
    rw [show (fun a : ItemRecord => { a with quantity := a.quantity + sumQ [] a.item_id })
        = fun a => a from funext fun a => by simp [sumQ], List.map_id']
  | succ n ih =>
    intro l hl acc
    match l with
    | [] =>
      simp only [List.foldl_nil, List.filter_nil, List.append_nil]
      rw [show (fun a : ItemRecord => { a with quantity := a.quantity + sumQ [] a.item_id })
          = fun a => a from funext fun a => by simp [sumQ], List.map_id']
    | r :: l2 =>
      have hl2 : l2.length ≤ n := Nat.le_of_succ_le_succ (by simpa using hl)
      rw [List.foldl_cons]
      by_cases hany : acc.any (fun a => a.item_id == r.item_id) = true
      · have haggAux : aggAux acc r = acc.map (fun a =>
            if a.item_id == r.item_id
            then { a with quantity := a.quantity + r.quantity } else a) := by
          unfold aggAux
          rw [if_pos hany]
        rw [haggAux, ih l2 hl2, List.map_map]
        have hpredr : ¬ ((fun x : ItemRecord =>
            !acc.any (fun a => a.item_id == x.item_id)) r) = true := by
          simp only [hany, Bool.not_true, Bool.false_eq_true, not_false_eq_true]
        rw [@List.filter_cons_of_neg _
          (fun x : ItemRecord => !acc.any (fun a => a.item_id == x.item_id)) r l2 hpredr]
        congr 1
        · apply List.map_congr_left
          intro a _
          by_cases h : (a.item_id == r.item_id) = true
          · have he : r.item_id = a.item_id := (eq_of_beq h).symm
            simp only [Function.comp, h, if_true]
            rw [sumQ_cons, if_pos he]
            show ({ a with quantity := a.quantity + r.quantity + sumQ l2 a.item_id }
              : ItemRecord) = { a with quantity := a.quantity + (r.quantity + sumQ l2 a.item_id) }
            rw [add_assoc]
          · have he : ¬ r.item_id = a.item_id := fun hh => h (by simp [hh])
            simp only [Function.comp, h, Bool.false_eq_true, if_false]
            rw [sumQ_cons, if_neg he, zero_add]
        · apply congrArg (List.foldl aggAux [])
          apply List.filter_congr
          intro x _
          rw [any_map_bump acc r.item_id r.quantity x.item_id]
      · have hanyf : acc.any (fun a => a.item_id == r.item_id) = false := by
          revert hany
          cases acc.any (fun a => a.item_id == r.item_id) <;> simp
        have haggAux : aggAux acc r = acc ++ [r] := by
          unfold aggAux
          rw [if_neg hany]
        have hpredr : ((fun x : ItemRecord =>
            !acc.any (fun a => a.item_id == x.item_id)) r) = true := by
          simp only [hanyf, Bool.not_false]
        rw [haggAux, ih l2 hl2 (acc ++ [r]),
          @List.filter_cons_of_pos _
            (fun x : ItemRecord => !acc.any (fun a => a.item_id == x.item_id)) r l2 hpredr,
          List.foldl_cons,
          show aggAux [] r = [r] from rfl,
          ih (l2.filter (fun x => !acc.any (fun a => a.item_id == x.item_id)))
            (le_trans (List.length_filter_le _ _) hl2) [r],
          List.map_append]
        have hids : ∀ a ∈ acc, ¬ a.item_id = r.item_id := by
          intro a ha hbad
          exact (List.any_eq_false.mp hanyf a ha) (by simp [hbad])
        have hmapacc : acc.map (fun a =>
              { a with quantity := a.quantity + sumQ l2 a.item_id })
            = acc.map (fun a =>
              { a with quantity := a.quantity + sumQ (r :: l2) a.item_id }) := by
          apply List.map_congr_left
          intro a ha
          rw [sumQ_cons, if_neg (fun hh => hids a ha hh.symm), zero_add]
        have hhead : sumQ l2 r.item_id
            = sumQ (l2.filter (fun x => !acc.any (fun a => a.item_id == x.item_id)))
                r.item_id := by
          rw [sumQ_filter_keep]
          intro x hx
          have : acc.any (fun a => a.item_id == x.item_id) = false := by
            rw [List.any_eq_false]
            intro a ha hbad
            exact hids a ha (by rw [eq_of_beq hbad, hx])
          simp [this]
        have hfilters : l2.filter (fun x =>
              !(acc ++ [r]).any (fun a => a.item_id == x.item_id))
            = (l2.filter (fun x => !acc.any (fun a => a.item_id == x.item_id))).filter
                (fun x => !([r].any (fun a => a.item_id == x.item_id))) := by
          rw [List.filter_filter]
          apply List.filter_congr
          intro x _
          rw [List.any_append, Bool.not_or, Bool.and_comm]
        rw [hmapacc, hfilters]
        simp only [List.map_singleton]
        rw [hhead, List.append_assoc]

theorem foldl_aggAux_split (l acc : List ItemRecord) :
    l.foldl aggAux acc =
      acc.map (fun a => { a with quantity := a.quantity + sumQ l a.item_id })
      ++ (l.filter (fun x => !acc.any (fun a => a.item_id == x.item_id))).foldl aggAux [] :=
  foldl_aggAux_split_aux l.length l (le_refl _) acc

theorem mem_of_mem_firstsBy :
    ∀ (l : List ItemRecord) (x : ItemRecord), x ∈ firstsBy l → x ∈ l := by
  intro l
  induction l using firstsBy.induct with
  | case1 => intro x h; exact absurd h (by simp [firstsBy])
  | case2 y xs ih =>
    intro x h
    rw [firstsBy] at h
    cases List.mem_cons.mp h with
    | inl h1 => exact h1 ▸ List.mem_cons_self y xs
    | inr h2 => exact List.mem_cons_of_mem y (List.mem_of_mem_filter (ih x h2))

theorem firstsBy_ids_nodup : ∀ l : List ItemRecord,
    ((firstsBy l).map (·.item_id)).Nodup := by
  intro l
  induction l using firstsBy.induct with
  | case1 => simp [firstsBy]
  | case2 y xs ih =>
    rw [firstsBy, List.map_cons, List.nodup_cons]
    refine ⟨?_, ih⟩
    intro hbad
    rcases List.mem_map.mp hbad with ⟨z, hz, hzid⟩
    have hz2 := List.mem_filter.mp (mem_of_mem_firstsBy _ z hz)
    have hzne : z.item_id ≠ y.item_id := by simpa using hz2.2
    exact hzne hzid

theorem firstsBy_ids_toFinset : ∀ l : List ItemRecord,
    ((firstsBy l).map (·.item_id)).toFinset = (l.map (·.item_id)).toFinset := by
  intro l
  induction l using firstsBy.induct with
  | case1 => rw [firstsBy]
  | case2 y xs ih =>
    rw [firstsBy, List.map_cons, List.map_cons, List.toFinset_cons, List.toFinset_cons, ih]
    apply Finset.ext
    intro e
    simp only [Finset.mem_insert, List.mem_toFinset, List.mem_map, List.mem_filter]
    constructor
    · rintro (he | ⟨z, ⟨hz, h2⟩, hze⟩)
      · exact Or.inl he
      · exact Or.inr ⟨z, hz, hze⟩
    · rintro (he | ⟨z, hz, hze⟩)
      · exact Or.inl he
      · by_cases hzy : z.item_id = y.item_id
        · exact Or.inl (by rw [← hze, hzy])
        · exact Or.inr ⟨z, ⟨hz, by simp [hzy]⟩, hze⟩

theorem aggregate_eq_firstsBy_aux :
    ∀ (n : Nat) (l : List ItemRecord), l.length ≤ n →
      aggregate_by_item_id l
        = (firstsBy l).map (fun r => { r with quantity := sumQ l r.item_id }) := by
  intro n
  induction n with
  | zero =>
    intro l hl
    rw [List.length_eq_zero.mp (Nat.le_zero.mp hl)]
    simp [aggregate_by_item_id, firstsBy]
  | succ n ih =>
    intro l hl
    match l with
    | [] => simp [aggregate_by_item_id, firstsBy]
    | r :: l2 =>
      have hl2 : l2.length ≤ n := Nat.le_of_succ_le_succ (by simpa using hl)
      have hstep : aggregate_by_item_id (r :: l2) = (r :: l2).foldl aggAux [] := rfl
      rw [hstep, List.foldl_cons, show aggAux [] r = [r] from rfl, foldl_aggAux_split]
      have hpred : ∀ x ∈ l2,
          (!([r].any (fun a => a.item_id == x.item_id))) = (x.item_id != r.item_id) := by
        intro x _
        by_cases h : r.item_id = x.item_id
        · simp [h, bne]
        · have h2 : ¬ x.item_id = r.item_id := fun hh => h hh.symm
          simp [h, h2, bne]
      rw [List.filter_congr hpred,
        show (l2.filter (fun y => y.item_id != r.item_id)).foldl aggAux []
          = aggregate_by_item_id (l2.filter (fun y => y.item_id != r.item_id)) from rfl,
        ih (l2.filter (fun y => y.item_id != r.item_id))
          (le_trans (List.length_filter_le _ _) hl2),
        firstsBy]
      simp only [List.map_singleton, List.map_cons, List.map_nil, List.singleton_append,
        List.cons_append, List.nil_append]
      rw [show sumQ (r :: l2) r.item_id = r.quantity + sumQ l2 r.item_id from by
        rw [sumQ_cons, if_pos rfl]]
      congr 1
      apply List.map_congr_left
      intro x hx
      have hxf := List.mem_filter.mp (mem_of_mem_firstsBy _ x hx)
      have hxne : x.item_id ≠ r.item_id := by simpa using hxf.2
      have hs1 : sumQ (l2.filter (fun y => y.item_id != r.item_id)) x.item_id
          = sumQ l2 x.item_id := by
        apply sumQ_filter_keep
        intro z hz
        simp [hz, hxne]
      have hs2 : sumQ (r :: l2) x.item_id = sumQ l2 x.item_id := by
        rw [sumQ_cons, if_neg (fun hh => hxne hh.symm), zero_add]
      rw [hs1, hs2]

theorem aggregate_eq_firstsBy (l : List ItemRecord) :
    aggregate_by_item_id l
      = (firstsBy l).map (fun r => { r with quantity := sumQ l r.item_id }) :=
  aggregate_eq_firstsBy_aux l.length l (le_refl _)

theorem aggregate_eq_self_of_nodup :
    ∀ l : List ItemRecord, (l.map (·.item_id)).Nodup → aggregate_by_item_id l = l := by
  intro l
  induction l with
  | nil => intro h; rfl
  | cons x xs ih =>
    intro hnd
    rw [List.map_cons, List.nodup_cons] at hnd
    have hnotin : ∀ z ∈ xs, z.item_id ≠ x.item_id := by
      intro z hz hbad
      exact hnd.1 (hbad ▸ List.mem_map_of_mem _ hz)
    have hstep : aggregate_by_item_id (x :: xs) = xs.foldl aggAux [x] := by
      unfold aggregate_by_item_id
      rw [List.foldl_cons]
      rfl
    rw [hstep, foldl_aggAux_split]
    have hfilter : xs.filter (fun z => !([x].any (fun a => a.item_id == z.item_id))) = xs := by
      rw [List.filter_eq_self]
      intro z hz
      have : ¬ x.item_id = z.item_id := fun hh => hnotin z hz hh.symm
      simp [this]
    rw [hfilter, show xs.foldl aggAux [] = aggregate_by_item_id xs from rfl, ih hnd.2]
    simp only [List.map_singleton, List.singleton_append]
    rw [sumQ_eq_zero xs x.item_id hnotin, add_zero]

theorem aggregate_ids_nodup (l : List ItemRecord) :
    ((aggregate_by_item_id l).map (·.item_id)).Nodup := by
  rw [aggregate_eq_firstsBy, List.map_map]
  rw [show ((fun a : ItemRecord => a.item_id)
      ∘ fun r : ItemRecord => { r with quantity := sumQ l r.item_id })
    = fun r : ItemRecord => r.item_id from funext fun r => rfl]
  exact firstsBy_ids_nodup l

/-- C9: aggregation maps any raw item list to one entry per distinct
`item_id` in first-occurrence order — the first occurrence of each
identifier with its quantity replaced by the total quantity of the matching
raw items, all other fields kept; it has exactly as many entries as there
are distinct identifiers, maps the empty list to the empty list, and is
idempotent. -/
theorem C9_aggregation_spec (items : List ItemRecord) :
    aggregate_by_item_id items
      = (firstsBy items).map (fun r => { r with quantity := sumQ items r.item_id })
    ∧ (aggregate_by_item_id items).length = ((items.map (·.item_id)).toFinset).card
    ∧ aggregate_by_item_id ([] : List ItemRecord) = []
    ∧ aggregate_by_item_id (aggregate_by_item_id items) = aggregate_by_item_id items := by
  refine ⟨aggregate_eq_firstsBy items, ?_, rfl, ?_⟩
  · rw [aggregate_eq_firstsBy, List.length_map, ← firstsBy_ids_toFinset,
      List.toFinset_card_of_nodup (firstsBy_ids_nodup items), List.length_map]
  · exact aggregate_eq_self_of_nodup _ (aggregate_ids_nodup items)
